import Mathlib

/-! bingus-bot: command table, command resolver and playback orchestrator

A shallow embedding of `main.go`.

* Go strings are embedded as Lean strings (sequences of code points); the two
  `strings` functions the handler uses are written over the character list.
* The process-wide `map[string]string` is a finite partial function, embedded
  as `String → Option String` with point update.
* The Discord session state (`s.State`) is read through its two lookups,
  `State.Channel` and `State.Guild`, which return `none` where the Go calls
  return an error.
* `messageCreate` is embedded as the list of `playSound` calls it makes.
* `playSound` is embedded by explicit state passing over the voice transport,
  and returns the trace of transport operations and log lines it produces.
-/

namespace BingusBot

/-! ## Strings -/

/-- Go `strings.HasPrefix(s, pre)`:
`len(s) >= len(pre) && s[:len(pre)] == pre`. -/
def hasPrefix (s pre : String) : Bool :=
  decide (pre.data.length ≤ s.data.length) && decide (s.data.take pre.data.length = pre.data)

/-- Go `strings.TrimPrefix(s, pre)`: `s[len(pre):]` when `s` starts with
`pre`, else `s` unchanged. -/
def trimPrefix (s pre : String) : String :=
  if hasPrefix s pre then String.mk (s.data.drop pre.data.length) else s

/-! ## Command table -/

/-- The record type decoded from the commands file. -/
structure BotCommands where
  Commands : List String
  FileName : String
  deriving DecidableEq, Repr

/-- Go `map[string]string`: `none` is an absent key. -/
abbrev CommandsMap := String → Option String

/-- The map `make(map[string]string)` creates. -/
def emptyMap : CommandsMap := fun _ => none

/-- The assignment `m[k] = v`. -/
def mapSet (m : CommandsMap) (k v : String) : CommandsMap :=
  fun q => if q = k then some v else m q

/-- The inner loop of `loadSounds`:
`for _, commandName := range command.Commands { commandsMap[commandName] = command.FileName }`. -/
def fillCommands (fileName : String) : List String → CommandsMap → CommandsMap
  | [], m => m
  | commandName :: rest, m => fillCommands fileName rest (mapSet m commandName fileName)

/-- The outer loop of `loadSounds`: `for _, command := range botCommands`. -/
def fillLoop : List BotCommands → CommandsMap → CommandsMap
  | [], m => m
  | command :: rest, m => fillLoop rest (fillCommands command.FileName command.Commands m)

/-- The three places where `loadSounds` panics before the fill loop. -/
inductive LoadPanic where
  | openFile (err : String)
  | readFile (err : String)
  | unmarshal (err : String)
  deriving DecidableEq, Repr

/-- `loadSounds`. The file system and the JSON decoder are outside the
program: `source` is what `os.Open`, `io.ReadAll` and `json.Unmarshal`
deliver, either the panic raised on their error or the decoded records.
`commandsMap` is the global map as it is when `loadSounds` starts; the result
is the global map when it returns. -/
def loadSounds (source : Except LoadPanic (List BotCommands)) (commandsMap : CommandsMap) :
    Except LoadPanic CommandsMap :=
  match source with
  | .error p => .error p
  | .ok botCommands => .ok (fillLoop botCommands commandsMap)

/-! ## Session state and messages -/

/-- Type `discordgo.User`, the field read by the handler. -/
structure User where
  ID : String
  deriving DecidableEq, Repr

/-- Type `discordgo.MessageCreate`, the fields read by the handler. The author
is always present. -/
structure MessageCreate where
  Author : User
  ChannelID : String
  Content : String
  deriving DecidableEq, Repr

/-- Type `discordgo.VoiceState`, the fields read by the handler. -/
structure VoiceState where
  UserID : String
  ChannelID : String
  deriving DecidableEq, Repr

/-- Type `discordgo.Guild`, the fields read by the handler. -/
structure Guild where
  ID : String
  VoiceStates : List VoiceState
  deriving DecidableEq, Repr

/-- Type `discordgo.Channel`, the field read by the handler. -/
structure Channel where
  GuildID : String
  deriving DecidableEq, Repr

/-- Type `discordgo.State` as the handler reads it: the bot's own user and the
two lookups, `none` standing for a returned error. -/
structure State where
  User : User
  channel : String → Option Channel
  guild : String → Option Guild

/-- Type `discordgo.Session`, the field read by the handler. -/
structure Session where
  State : State

/-- The flag variables and the global map read by `messageCreate`. -/
structure Globals where
  commandPrefix : String
  soundsFolder : String
  commandsMap : CommandsMap

/-- One call `playSound(s, guildID, channelID, audioPath)`. -/
structure PlayCall where
  guildID : String
  channelID : String
  audioPath : String
  deriving DecidableEq, Repr

/-- The loop over `g.VoiceStates` in `messageCreate`; the accumulator is the
pair of local variables `(guildID, channelID)`. -/
def voiceLoop (authorID gID : String) : List VoiceState → String × String → String × String
  | [], acc => acc
  | vs :: rest, acc =>
    voiceLoop authorID gID rest (if vs.UserID = authorID then (gID, vs.ChannelID) else acc)

/-- `messageCreate`, as the list of `playSound` calls it makes. -/
def messageCreate (gl : Globals) (s : Session) (m : MessageCreate) : List PlayCall :=
  if m.Author.ID = s.State.User.ID then []
  else if !hasPrefix m.Content gl.commandPrefix then []
  else
    match s.State.channel m.ChannelID with
    | none => []
    | some c =>
      match s.State.guild c.GuildID with
      | none => []
      | some g =>
        let r := voiceLoop m.Author.ID g.ID g.VoiceStates ("", "")
        let guildID := r.1
        let channelID := r.2
        if guildID = "" ∨ channelID = "" then []
        else
          let prefixlessCommand := trimPrefix m.Content gl.commandPrefix
          match gl.commandsMap prefixlessCommand with
          | some sound => [⟨guildID, channelID, gl.soundsFolder ++ "/" ++ sound ++ ".mp3"⟩]
          | none => []

/-! ## Concrete data used by the examples -/

/-- The table with the single entry `airhorn -> airhorn`. -/
def airhornMap : CommandsMap := mapSet emptyMap "airhorn" "airhorn"

/-- Prefix `~`, folder `sounds`, table `airhorn -> airhorn`. -/
def airhornGlobals : Globals := ⟨"~", "sounds", airhornMap⟩

/-- A session whose own user is `BOT`, where channel `C1` is in guild `G1` and
guild `G1` has the given voice states. -/
def sessionG1 (voiceStates : List VoiceState) : Session :=
  ⟨⟨⟨"BOT"⟩,
    fun id => if id = "C1" then some ⟨"G1"⟩ else none,
    fun id => if id = "G1" then some ⟨"G1", voiceStates⟩ else none⟩⟩

/-- Two records that both list the alias `a`, with different file names. -/
def collidingRecords : List BotCommands := [⟨["a"], "x"⟩, ⟨["a", "b"], "y"⟩]

/-! ## Playback -/

/-- What `playSound` does that is visible outside it: the three operations on
the voice transport and the log lines. `Conn` is the type of the connection
handle `*discordgo.VoiceConnection`. -/
inductive Event (Conn : Type) where
  | join (guildID channelID : String) (mute deaf : Bool)
  | play (voice : Conn) (audioPath : String)
  | disconnect (voice : Conn)
  | logError (msg err : String)
  | logInfo (msg sound : String)
  deriving DecidableEq, Repr

/-- The voice transport, outside the program. `W` is the state of the world
the three operations act on. `ChannelVoiceJoin` returns a connection or an
error; `PlayAudioFile` has no result in Go, so whether the file played
through or failed on the way shows only in the world it leaves; `Disconnect`
returns an error or nothing. -/
structure VoiceTransport (W Conn : Type) where
  ChannelVoiceJoin : W → String → String → Bool → Bool → Except String Conn × W
  PlayAudioFile : W → Conn → String → W
  Disconnect : W → Conn → Option String × W

/-- `playSound`: the trace it produces and the world it leaves. -/
def playSound {W Conn : Type} (t : VoiceTransport W Conn) (w : W)
    (guildID channelID audioPath : String) : List (Event Conn) × W :=
  match t.ChannelVoiceJoin w guildID channelID false true with
  | (.error err, w1) =>
    ([.join guildID channelID false true, .logError "Error joining voice channel." err], w1)
  | (.ok voice, w1) =>
    let w2 := t.PlayAudioFile w1 voice audioPath
    match t.Disconnect w2 voice with
    | (some err, w3) =>
      ([.join guildID channelID false true, .play voice audioPath, .disconnect voice,
        .logError "Error disconnecting from voice channel." err,
        .logInfo "Sound played." audioPath], w3)
    | (none, w3) =>
      ([.join guildID channelID false true, .play voice audioPath, .disconnect voice,
        .logInfo "Sound played." audioPath], w3)

/-- The events that are operations on the voice transport. -/
def Event.isTransportOp {Conn : Type} : Event Conn → Bool
  | .join _ _ _ _ => true
  | .play _ _ => true
  | .disconnect _ => true
  | .logError _ _ => false
  | .logInfo _ _ => false


/-! ## Lemmas on the string functions -/

theorem hasPrefix_append (pre tok : String) : hasPrefix (pre ++ tok) pre = true := by
  simp [hasPrefix, String.data_append]

theorem trimPrefix_append (pre tok : String) : trimPrefix (pre ++ tok) pre = tok := by
  simp [trimPrefix, hasPrefix_append, String.data_append]

theorem eq_append_of_hasPrefix (s pre : String) (h : hasPrefix s pre = true) :
    ∃ tok : String, s = pre ++ tok := by
  simp only [hasPrefix, Bool.and_eq_true, decide_eq_true_eq] at h
  refine ⟨String.mk (s.data.drop pre.data.length), ?_⟩
  apply String.ext
  rw [String.data_append]
  have hsplit := List.take_append_drop pre.data.length s.data
  rw [h.2] at hsplit
  exact hsplit.symm

/-! ## Lemmas on the voice-state loop -/

theorem voiceLoop_eq (authorID gID : String) (vss : List VoiceState) (acc : String × String) :
    voiceLoop authorID gID vss acc =
      match (vss.filter (fun vs => decide (vs.UserID = authorID))).getLast? with
      | some vs => (gID, vs.ChannelID)
      | none => acc := by
  induction vss generalizing acc with
  | nil => simp [voiceLoop]
  | cons vs rest ih =>
    rw [voiceLoop, ih]
    by_cases hvs : vs.UserID = authorID
    · simp only [hvs, if_true, decide_True, List.filter_cons_of_pos]
      cases hrest : (rest.filter (fun vs => decide (vs.UserID = authorID))).getLast? with
      | none =>
        have hnil : rest.filter (fun vs => decide (vs.UserID = authorID)) = [] := by
          simpa using hrest
        simp [hnil]
      | some v =>
        have hlast : (vs :: rest.filter (fun vs => decide (vs.UserID = authorID))).getLast?
            = some v := by
          cases hf : rest.filter (fun vs => decide (vs.UserID = authorID)) with
          | nil => simp [hf] at hrest
          | cons a l => rw [hf] at hrest; rw [List.getLast?_cons_cons]; exact hrest
        simp [hlast]
    · simp [hvs]


/-! ## The handler -/

/-- The handler on a message that passes every check: one call, to the voice
channel of the last voice state of the author. -/
theorem messageCreate_play (gl : Globals) (s : Session) (m : MessageCreate)
    (tok sound : String) (c : Channel) (g : Guild) (vs : VoiceState)
    (hself : m.Author.ID ≠ s.State.User.ID)
    (htext : m.Content = gl.commandPrefix ++ tok)
    (hsound : gl.commandsMap tok = some sound)
    (hchan : s.State.channel m.ChannelID = some c)
    (hguild : s.State.guild c.GuildID = some g)
    (hgid : g.ID ≠ "")
    (hlast : (g.VoiceStates.filter (fun x => decide (x.UserID = m.Author.ID))).getLast? = some vs)
    (hvid : vs.ChannelID ≠ "") :
    messageCreate gl s m = [⟨g.ID, vs.ChannelID, gl.soundsFolder ++ "/" ++ sound ++ ".mp3"⟩] := by
  simp [messageCreate, hself, htext, hasPrefix_append, trimPrefix_append, hsound, hchan, hguild,
    voiceLoop_eq, hlast, hgid, hvid]

/-- The handler makes no call when the guard on the two identifiers fails. -/
theorem messageCreate_guard (gl : Globals) (s : Session) (m : MessageCreate)
    (c : Channel) (g : Guild)
    (hchan : s.State.channel m.ChannelID = some c)
    (hguild : s.State.guild c.GuildID = some g)
    (hguard : (voiceLoop m.Author.ID g.ID g.VoiceStates ("", "")).1 = "" ∨
      (voiceLoop m.Author.ID g.ID g.VoiceStates ("", "")).2 = "") :
    messageCreate gl s m = [] := by
  simp only [messageCreate, hchan, hguild]
  split
  · rfl
  · split
    · rfl
    · simp [hguard]

/-- C1. Happy path: a message from another user, with text `prefix ++ tok` where
the table maps `tok` to `sound`, whose channel resolves to a guild `g` with a
non-empty id in which exactly one voice state, `vs`, belongs to the author and
has a non-empty channel id, makes exactly one `playSound` call, with
`(g.ID, vs.ChannelID, soundsFolder ++ "/" ++ sound ++ ".mp3")`. -/
theorem happy_path (gl : Globals) (s : Session) (m : MessageCreate)
    (tok sound : String) (c : Channel) (g : Guild) (vs : VoiceState)
    (hself : m.Author.ID ≠ s.State.User.ID)
    (htext : m.Content = gl.commandPrefix ++ tok)
    (hsound : gl.commandsMap tok = some sound)
    (hchan : s.State.channel m.ChannelID = some c)
    (hguild : s.State.guild c.GuildID = some g)
    (hgid : g.ID ≠ "")
    (hone : g.VoiceStates.filter (fun x => decide (x.UserID = m.Author.ID)) = [vs])
    (hvid : vs.ChannelID ≠ "") :
    messageCreate gl s m = [⟨g.ID, vs.ChannelID, gl.soundsFolder ++ "/" ++ sound ++ ".mp3"⟩] :=
  messageCreate_play gl s m tok sound c g vs hself htext hsound hchan hguild hgid
    (by rw [hone]; rfl) hvid

/-- The happy path at the input of the spec: prefix `~`, table
`airhorn -> airhorn`, message `U1, C1, ~airhorn`, channel `C1` in guild `G1`,
presence `U1, V1`, folder `sounds`. -/
theorem happy_path_witness :
    messageCreate airhornGlobals (sessionG1 [⟨"U1", "V1"⟩]) ⟨⟨"U1"⟩, "C1", "~airhorn"⟩
      = [⟨"G1", "V1", "sounds/airhorn.mp3"⟩] :=
  happy_path airhornGlobals (sessionG1 [⟨"U1", "V1"⟩]) ⟨⟨"U1"⟩, "C1", "~airhorn"⟩
    "airhorn" "airhorn" ⟨"G1"⟩ ⟨"G1", [⟨"U1", "V1"⟩]⟩ ⟨"U1", "V1"⟩
    (by decide) (by decide) (by decide) (by decide) (by decide) (by decide) (by decide)
    (by decide)

/-- C4. No voice presence: when no voice state of the guild the message's
channel resolves to belongs to the author, the handler makes no `playSound`
call, whatever the text and the table. -/
theorem no_voice_presence (gl : Globals) (s : Session) (m : MessageCreate)
    (habsent : ∀ c g, s.State.channel m.ChannelID = some c → s.State.guild c.GuildID = some g →
      ∀ vs ∈ g.VoiceStates, vs.UserID ≠ m.Author.ID) :
    messageCreate gl s m = [] := by
  cases hchan : s.State.channel m.ChannelID with
  | none => simp [messageCreate, hchan]
  | some c =>
    cases hguild : s.State.guild c.GuildID with
    | none => simp [messageCreate, hchan, hguild]
    | some g =>
      apply messageCreate_guard gl s m c g hchan hguild
      have hnil : g.VoiceStates.filter (fun x => decide (x.UserID = m.Author.ID)) = [] := by
        rw [List.filter_eq_nil_iff]
        intro vs hvs
        simpa using habsent c g hchan hguild vs hvs
      left
      rw [voiceLoop_eq, hnil]
      rfl

/-- The author `U1` sends `~airhorn`, a known command, in channel `C1` of
guild `G1`, where only `U2` is in a voice channel: no call. -/
theorem no_voice_presence_witness :
    airhornMap "airhorn" = some "airhorn" ∧
    messageCreate airhornGlobals (sessionG1 [⟨"U2", "V1"⟩]) ⟨⟨"U1"⟩, "C1", "~airhorn"⟩ = [] :=
  ⟨by decide,
   no_voice_presence airhornGlobals (sessionG1 [⟨"U2", "V1"⟩]) ⟨⟨"U1"⟩, "C1", "~airhorn"⟩
    (by
      intro c g hchan hguild vs hvs
      have hg : g = ⟨"G1", [⟨"U2", "V1"⟩]⟩ := by
        have hc : c = ⟨"G1"⟩ := by
          simp [sessionG1] at hchan
          exact hchan.symm
        subst hc
        simp [sessionG1] at hguild
        exact hguild.symm
      subst hg
      simp at hvs
      subst hvs
      decide)⟩


/-- C5. Unknown command: a message whose text is `prefix ++ tok`, with `tok`
not a key of the command table, makes no `playSound` call in any session
state; the key looked up is `tok` itself, the whole text after one prefix,
compared as a string. -/
theorem unknown_command (gl : Globals) (s : Session) (m : MessageCreate) (tok : String)
    (htext : m.Content = gl.commandPrefix ++ tok)
    (hkey : gl.commandsMap tok = none) :
    messageCreate gl s m = [] := by
  simp only [messageCreate, htext, hasPrefix_append, trimPrefix_append, hkey]
  repeat' split
  all_goals rfl

/-- With the table `airhorn -> airhorn` and the author `U1` in voice channel
`V1`, the text `~Airhorn` plays nothing: the match is case-sensitive. -/
theorem unknown_command_witness :
    messageCreate airhornGlobals (sessionG1 [⟨"U1", "V1"⟩]) ⟨⟨"U1"⟩, "C1", "~Airhorn"⟩ = [] :=
  unknown_command airhornGlobals (sessionG1 [⟨"U1", "V1"⟩]) ⟨⟨"U1"⟩, "C1", "~Airhorn"⟩
    "Airhorn" (by decide) (by decide)

/-- C6. Self-message filter: a message whose author is the bot's own user
makes no `playSound` call, whatever its text and the session state. -/
theorem self_message_filter (gl : Globals) (s : Session) (m : MessageCreate)
    (hself : m.Author.ID = s.State.User.ID) :
    messageCreate gl s m = [] := by
  simp [messageCreate, hself]

/-- The bot's own user `BOT`, present in voice channel `V1`, sends the known
command `~airhorn`: no call. -/
theorem self_message_filter_witness :
    messageCreate airhornGlobals (sessionG1 [⟨"BOT", "V1"⟩]) ⟨⟨"BOT"⟩, "C1", "~airhorn"⟩ = [] :=
  self_message_filter airhornGlobals (sessionG1 [⟨"BOT", "V1"⟩]) ⟨⟨"BOT"⟩, "C1", "~airhorn"⟩
    (by decide)

/-- C7. Prefix filter: a message whose text is not the command prefix followed
by some string makes no `playSound` call, whatever the table, the author and
the session state. -/
theorem prefix_filter (gl : Globals) (s : Session) (m : MessageCreate)
    (hstart : ∀ tok : String, m.Content ≠ gl.commandPrefix ++ tok) :
    messageCreate gl s m = [] := by
  have hfalse : hasPrefix m.Content gl.commandPrefix = false := by
    cases h : hasPrefix m.Content gl.commandPrefix with
    | false => rfl
    | true =>
      obtain ⟨tok, htok⟩ := eq_append_of_hasPrefix _ _ h
      exact absurd htok (hstart tok)
  simp [messageCreate, hfalse]

/-- The text `airhorn`, without the prefix `~`, from a user in a voice
channel: no call. -/
theorem prefix_filter_witness :
    messageCreate airhornGlobals (sessionG1 [⟨"U1", "V1"⟩]) ⟨⟨"U1"⟩, "C1", "airhorn"⟩ = [] :=
  prefix_filter airhornGlobals (sessionG1 [⟨"U1", "V1"⟩]) ⟨⟨"U1"⟩, "C1", "airhorn"⟩
    (by
      intro tok h
      have hdata := congrArg String.data h
      have hcfg : airhornGlobals.commandPrefix = "~" := rfl
      rw [hcfg, String.data_append] at hdata
      simp at hdata)

/-- C8. Tie-break: when voice states of the guild, however many, belong to the
author and the other conditions for playback hold, the one call made carries
the channel id of the last of them in the order of the guild's voice-state
list. -/
theorem tie_break_last (gl : Globals) (s : Session) (m : MessageCreate)
    (tok sound : String) (c : Channel) (g : Guild) (vs : VoiceState)
    (hself : m.Author.ID ≠ s.State.User.ID)
    (htext : m.Content = gl.commandPrefix ++ tok)
    (hsound : gl.commandsMap tok = some sound)
    (hchan : s.State.channel m.ChannelID = some c)
    (hguild : s.State.guild c.GuildID = some g)
    (hgid : g.ID ≠ "")
    (hlast : (g.VoiceStates.filter (fun x => decide (x.UserID = m.Author.ID))).getLast? = some vs)
    (hvid : vs.ChannelID ≠ "") :
    ∃ call, messageCreate gl s m = [call] ∧ call.channelID = vs.ChannelID ∧
      call.guildID = g.ID ∧ call.audioPath = gl.soundsFolder ++ "/" ++ sound ++ ".mp3" :=
  ⟨_, messageCreate_play gl s m tok sound c g vs hself htext hsound hchan hguild hgid hlast hvid,
    rfl, rfl, rfl⟩

/-- The author `U1` is listed in `V1`, then `U2` in `V9`, then `U1` again in
`V2`: the call goes to `V2`, the last one, not to `V1`. -/
theorem tie_break_last_witness :
    ∃ call, messageCreate airhornGlobals
        (sessionG1 [⟨"U1", "V1"⟩, ⟨"U2", "V9"⟩, ⟨"U1", "V2"⟩]) ⟨⟨"U1"⟩, "C1", "~airhorn"⟩ = [call] ∧
      call.channelID = "V2" ∧ call.guildID = "G1" ∧ call.audioPath = "sounds/airhorn.mp3" :=
  tie_break_last airhornGlobals (sessionG1 [⟨"U1", "V1"⟩, ⟨"U2", "V9"⟩, ⟨"U1", "V2"⟩])
    ⟨⟨"U1"⟩, "C1", "~airhorn"⟩ "airhorn" "airhorn" ⟨"G1"⟩
    ⟨"G1", [⟨"U1", "V1"⟩, ⟨"U2", "V9"⟩, ⟨"U1", "V2"⟩]⟩ ⟨"U1", "V2"⟩
    (by decide) (by decide) (by decide) (by decide) (by decide) (by decide) (by decide)
    (by decide)

/-- C10. Empty-identifier guard: when the channel and the guild resolve and
either the guild's id is empty or the last voice state of the author has an
empty channel id, the handler makes no `playSound` call, whatever the table
and the earlier voice states. -/
theorem empty_identifier_guard (gl : Globals) (s : Session) (m : MessageCreate)
    (c : Channel) (g : Guild)
    (hchan : s.State.channel m.ChannelID = some c)
    (hguild : s.State.guild c.GuildID = some g)
    (hempty : g.ID = "" ∨
      ∃ vs, (g.VoiceStates.filter (fun x => decide (x.UserID = m.Author.ID))).getLast? = some vs ∧
        vs.ChannelID = "") :
    messageCreate gl s m = [] := by
  apply messageCreate_guard gl s m c g hchan hguild
  rw [voiceLoop_eq]
  rcases hempty with hgid | ⟨vs, hlast, hvid⟩
  · left
    cases (g.VoiceStates.filter (fun x => decide (x.UserID = m.Author.ID))).getLast? with
    | none => rfl
    | some v => exact hgid
  · right
    rw [hlast]
    exact hvid

/-- The author `U1` sends the known command `~airhorn`; the voice states list
`U1` in `V1` and then `U1` with an empty channel id: no call, although the
earlier entry has a channel. -/
theorem empty_identifier_guard_witness :
    messageCreate airhornGlobals (sessionG1 [⟨"U1", "V1"⟩, ⟨"U1", ""⟩])
      ⟨⟨"U1"⟩, "C1", "~airhorn"⟩ = [] :=
  empty_identifier_guard airhornGlobals (sessionG1 [⟨"U1", "V1"⟩, ⟨"U1", ""⟩])
    ⟨⟨"U1"⟩, "C1", "~airhorn"⟩ ⟨"G1"⟩ ⟨"G1", [⟨"U1", "V1"⟩, ⟨"U1", ""⟩]⟩
    (by decide) (by decide) (Or.inr ⟨⟨"U1", ""⟩, by decide, by decide⟩)


/-! ## The orchestrator -/

/-- C3. Orchestrator fault isolation: on every transport, in every world and
for every `(guildID, channelID, audioPath)`, when the join fails the trace of
`playSound` is the join followed by the report of the join error, with no play
and no disconnect; when the join succeeds the transport operations of the
trace are the join, one play of `audioPath` on the acquired connection and
then one disconnect of that same connection, whatever the play step and the
disconnect step do. -/
theorem playSound_fault_isolation {W Conn : Type} (t : VoiceTransport W Conn) (w : W)
    (guildID channelID audioPath : String) :
    match (t.ChannelVoiceJoin w guildID channelID false true).1 with
    | .error err =>
      (playSound t w guildID channelID audioPath).1 =
        [.join guildID channelID false true, .logError "Error joining voice channel." err]
    | .ok voice =>
      (playSound t w guildID channelID audioPath).1.filter Event.isTransportOp =
        [.join guildID channelID false true, .play voice audioPath, .disconnect voice] := by
  unfold playSound
  rcases hjoin : t.ChannelVoiceJoin w guildID channelID false true with ⟨r, w1⟩
  cases r with
  | error err => rfl
  | ok voice =>
    simp only
    rcases hdisc : t.Disconnect (t.PlayAudioFile w1 voice audioPath) voice with ⟨e, w3⟩
    cases e with
    | none => rfl
    | some err => rfl


/-! ## The load -/

theorem fillCommands_of_mem (fileName k : String) (cs : List String) (m : CommandsMap)
    (hk : k ∈ cs) : fillCommands fileName cs m k = some fileName := by
  induction cs generalizing m with
  | nil => simp at hk
  | cons c rest ih =>
    rw [fillCommands]
    by_cases hrest : k ∈ rest
    · exact ih _ hrest
    · have hkc : k = c := by
        rcases List.mem_cons.mp hk with h | h
        · exact h
        · exact absurd h hrest
      subst hkc
      have hkeep : ∀ (l : List String) (m' : CommandsMap), k ∉ l →
          fillCommands fileName l m' k = m' k := by
        intro l
        induction l with
        | nil => intro m' _; rfl
        | cons d l ihl =>
          intro m' hd
          rw [fillCommands, ihl _ (fun h => hd (List.mem_cons_of_mem _ h))]
          have hne : k ≠ d := fun h => hd (by rw [h]; exact List.mem_cons_self _ _)
          simp [mapSet, hne]
      rw [hkeep rest _ hrest]
      simp [mapSet]

theorem fillCommands_of_not_mem (fileName k : String) (cs : List String) (m : CommandsMap)
    (hk : k ∉ cs) : fillCommands fileName cs m k = m k := by
  induction cs generalizing m with
  | nil => rfl
  | cons c rest ih =>
    rw [fillCommands, ih _ (fun h => hk (List.mem_cons_of_mem _ h))]
    have hne : k ≠ c := fun h => hk (by rw [h]; exact List.mem_cons_self _ _)
    simp [mapSet, hne]

theorem fillLoop_of_not_mem (k : String) (rs : List BotCommands) (m : CommandsMap)
    (hk : ∀ b ∈ rs, k ∉ b.Commands) : fillLoop rs m k = m k := by
  induction rs generalizing m with
  | nil => rfl
  | cons b rest ih =>
    rw [fillLoop, ih _ (fun b' hb' => hk b' (List.mem_cons_of_mem _ hb'))]
    exact fillCommands_of_not_mem _ _ _ _ (hk b (List.mem_cons_self _ _))

theorem fillLoop_append (xs ys : List BotCommands) (m : CommandsMap) :
    fillLoop (xs ++ ys) m = fillLoop ys (fillLoop xs m) := by
  induction xs generalizing m with
  | nil => rfl
  | cons b rest ih => simp [fillLoop, ih]

/-- An alias listed by some record is mapped by the fill loop to a value that
does not depend on the map the loop started from. -/
theorem fillLoop_of_mem (k : String) (rs : List BotCommands) (m m' : CommandsMap)
    (hk : ∃ b ∈ rs, k ∈ b.Commands) : fillLoop rs m k = fillLoop rs m' k := by
  induction rs generalizing m m' with
  | nil => simp at hk
  | cons b rest ih =>
    rw [fillLoop, fillLoop]
    by_cases hrest : ∃ b' ∈ rest, k ∈ b'.Commands
    · exact ih _ _ hrest
    · have hnot : ∀ b' ∈ rest, k ∉ b'.Commands := by
        intro b' hb' hmem
        exact hrest ⟨b', hb', hmem⟩
      have hb : k ∈ b.Commands := by
        obtain ⟨b', hb', hmem⟩ := hk
        rcases List.mem_cons.mp hb' with h | h
        · rw [← h]; exact hmem
        · exact absurd hmem (hnot b' h)
      rw [fillLoop_of_not_mem k rest _ hnot, fillLoop_of_not_mem k rest _ hnot,
        fillCommands_of_mem _ _ _ _ hb, fillCommands_of_mem _ _ _ _ hb]

/-- C2, as the claim states it, fails: on two records that both list the alias
`a` the load does not fail; it returns a table, in which `a` maps to the file
name of the second record. -/
theorem load_collision_not_rejected :
    ∃ table, loadSounds (.ok collidingRecords) emptyMap = .ok table ∧
      table "a" = some "y" ∧ table "b" = some "y" :=
  ⟨fillLoop collidingRecords emptyMap, rfl, by decide, by decide⟩

/-- C2, amended. The load over decoded records never fails, whatever the
records: it returns the table the fill loop leaves, and an alias listed by
several records maps to the file name of the last record that lists it. -/
theorem load_last_record_wins (before after : List BotCommands) (b : BotCommands)
    (commandsMap : CommandsMap) (commandName : String)
    (hlisted : commandName ∈ b.Commands)
    (hlast : ∀ b' ∈ after, commandName ∉ b'.Commands) :
    ∃ table, loadSounds (.ok (before ++ b :: after)) commandsMap = .ok table ∧
      table commandName = some b.FileName := by
  refine ⟨fillLoop (before ++ b :: after) commandsMap, rfl, ?_⟩
  rw [fillLoop_append, fillLoop, fillLoop_of_not_mem commandName after _ hlast]
  exact fillCommands_of_mem _ _ _ _ hlisted

/-- The alias `a` is listed by `x`, then by `y`, and not by the last record
`z`: the load succeeds and `a` maps to `y`. -/
theorem load_last_record_wins_witness :
    ∃ table, loadSounds (.ok ([⟨["a"], "x"⟩] ++ ⟨["a", "b"], "y"⟩ :: [⟨["c"], "z"⟩])) emptyMap
        = .ok table ∧ table "a" = some (BotCommands.mk ["a", "b"] "y").FileName :=
  load_last_record_wins [⟨["a"], "x"⟩] [⟨["c"], "z"⟩] ⟨["a", "b"], "y"⟩ emptyMap "a"
    (by decide) (by decide)

/-- C9. Load idempotence: for every list of records and every map the first
load starts from, both loads return, and the table after a second load over
the same records, written into the map the first load filled, gives the same
lookup result as the table after the first load for every alias. -/
theorem load_idempotent (records : List BotCommands) (commandsMap : CommandsMap) :
    ∃ first second, loadSounds (.ok records) commandsMap = .ok first ∧
      loadSounds (.ok records) first = .ok second ∧
      ∀ commandName, second commandName = first commandName := by
  refine ⟨fillLoop records commandsMap, fillLoop records (fillLoop records commandsMap),
    rfl, rfl, ?_⟩
  intro commandName
  by_cases hk : ∃ b ∈ records, commandName ∈ b.Commands
  · exact fillLoop_of_mem commandName records _ _ hk
  · apply fillLoop_of_not_mem
    intro b hb hmem
    exact hk ⟨b, hb, hmem⟩

end BingusBot
